import Mathlib

/-!
Shallow embedding of the politeia git backend (`politeiad/backend/gitbe/gitbe.go`)
and proofs about its record store and anchoring pipeline.

Conventions of the embedding:
* Bytes are modelled as natural numbers, digests as byte lists (`Bytes`).
* External capabilities (the git subprocess, the SHA-256 function from the Go
  standard library, MIME detection, filename sanitization and the dcrtime
  merkle library) are modelled as parameters or as deterministic state
  transitions; a single fault-injection flag (`Env.commitOk`) models a failing
  `git commit` subprocess, which the code's failure-unwinding paths react to.
* Fallible Go code that returns `error` (or panics) is modelled with
  `Option` / `Except`; errors carry the repository state at the moment of
  failure, because the real code mutates the filesystem in place and an error
  return does not roll those mutations back.
-/

namespace Gitbe

deriving instance DecidableEq for Except

/-- Bytes and digests are lists of naturals (each conceptually < 256). -/
abbrev Bytes := List Nat

/-- Function `extendSHA1` appends zeros to make a SHA1 digest the size of a SHA256
digest.  The Go function panics unless the input is 20 bytes; the panic is
modelled as `none`. -/
def extendSHA1 (d : Bytes) : Option Bytes :=
  if d.length = 20 then some (d ++ List.replicate 12 0) else none

/-- Function `unextendSHA256` removes the zero extension to recover a SHA1-sized
digest.  The Go function panics unless the input is 32 bytes whose last 12
bytes are all zero; the panics are modelled as `none`. -/
def unextendSHA256 (d : Bytes) : Option Bytes :=
  if d.length = 32 && (d.drop 20).all (· == 0) then some (d.take 20) else none

/-- Lower-case hex digit, as produced by Go `%x` formatting. -/
def hexChar : Nat → Char
  | 0 => '0' | 1 => '1' | 2 => '2' | 3 => '3' | 4 => '4'
  | 5 => '5' | 6 => '6' | 7 => '7' | 8 => '8' | 9 => '9'
  | 10 => 'a' | 11 => 'b' | 12 => 'c' | 13 => 'd' | 14 => 'e'
  | _ => 'f'

/-- Two hex digits of one byte. -/
def hexByte (b : Nat) : String := String.mk [hexChar (b / 16 % 16), hexChar (b % 16)]

/-- Hex encoding of a byte string (Go `hex.EncodeToString` / `%x`). -/
def hexOf (d : Bytes) : String := String.join (d.map hexByte)

/-- Lower-case hex digit test, as used by the marker regexes. -/
def isHexChar (c : Char) : Bool :=
  c == '0' || c == '1' || c == '2' || c == '3' || c == '4' || c == '5' ||
  c == '6' || c == '7' || c == '8' || c == '9' || c == 'a' || c == 'b' ||
  c == 'c' || c == 'd' || c == 'e' || c == 'f'

/-- Test whether `l` starts with `pre` (character-wise). -/
def listStartsWith : List Char → List Char → Bool
  | _, [] => true
  | [], _ :: _ => false
  | c :: cs, d :: ds => c == d && listStartsWith cs ds

/-- Model of `util.IsDigest`: a 64-character lower-case hex string (a hex encoded
32-byte digest).  The `util` package is an external collaborator; the
definition follows its documented meaning. -/
def isDigestStr (s : String) : Bool :=
  s.toList.length == 64 && s.toList.all isHexChar

/-- Go `strings.Trim(s, " \t\n")`: strip those characters from both ends. -/
def isTrimChar (c : Char) : Bool := c == ' ' || c == '\t' || c == '\n'

/-- Trim with the cutset used by `appendAuditTrail`. -/
def goTrim (s : String) : String :=
  String.mk (((s.toList.dropWhile isTrimChar).reverse.dropWhile isTrimChar).reverse)

/-- Commit message marker for anchor commits (`markerAnchor` in the source). -/
def markerAnchor : String := "Anchor"

/-- Commit message marker for anchor confirmation commits
(`markerAnchorConfirmation` in the source). -/
def markerAnchorConfirmation : String := "Anchor confirmation"

/-- Modelled from the spec: the marker regexes (`regexAnchor` and
`regexAnchorConfirmation`) are declared in a gitbe file that is not under
`src/`.  The spec defines them as: subject begins with the literal marker,
a space, and 64 hex characters. -/
def matchesMarker (marker s : String) : Bool :=
  let m := (marker ++ " ").toList
  let rest := s.toList.drop m.length
  listStartsWith s.toList m && decide (64 ≤ rest.length) &&
  (rest.take 64).all isHexChar

/-- Model of `regexAnchorConfirmation.MatchString`. -/
def regexAnchorConfirmation (s : String) : Bool :=
  matchesMarker markerAnchorConfirmation s

/-- Model of `regexAnchor.MatchString`. -/
def regexAnchor (s : String) : Bool :=
  matchesMarker markerAnchor s

/-! Merkle aggregation

The dcrtime merkle library is an external dependency.  Modelled from the
spec: `merkle.Root` sorts the 32-byte digests into canonical order
(lexicographic over the digest bytes) and then combines them pairwise into a
tree.  The combination step is parametrized by the hash function. -/
/-- Canonical digest order: lexicographic over the digest bytes
(the `LinearOrder` on `List Nat` is exactly lexicographic order). -/
def sortDigests (l : List Bytes) : List Bytes :=
  List.insertionSort (· ≤ ·) l

/-- One level of pairwise tree hashing. -/
def merklePass (hash : Bytes → Bytes) : List Bytes → List Bytes
  | [] => []
  | [a] => [a]
  | a :: b :: rest => hash (a ++ b) :: merklePass hash rest

/-- Combine an (already canonically ordered) digest list into a root, with
fuel bounded by the list length. -/
def merkleTreeAux (hash : Bytes → Bytes) : Nat → List Bytes → Bytes
  | _, [] => hash []
  | _, [a] => a
  | 0, l => hash l.flatten
  | Nat.succ n, l => merkleTreeAux hash n (merklePass hash l)

/-- Merkle combination of a digest list taken in the order given. -/
def merkleTreeS (hash : Bytes → Bytes) (l : List Bytes) : Bytes :=
  merkleTreeAux hash l.length l

/-- Model of `merkle.Root`: sort the digests into canonical order, then combine. -/
def merkleRoot (hash : Bytes → Bytes) (l : List Bytes) : Bytes :=
  merkleTreeS hash (sortDigests l)

/-! Data model

The `backend` package (statuses, error values, `RecordMetadata`,
`MetadataStream`, `File`) is repository code that is not under `src/`; its
declarations are modelled from the spec (section 3 and section 7). -/
/-- Model of the `backend.MDStatusT` values used by the git backend. -/
inductive MDStatus
  | invalid
  | unvetted
  | vetted
  | censored
  | iterationUnvetted
  | locked
deriving DecidableEq, Repr

/-- Model of `backend.RecordMetadata` (`recordmetadata.json`). -/
structure RecordMetadata where
  version : Nat
  status : MDStatus
  merkle : Bytes
  timestamp : Int
  token : Bytes
deriving DecidableEq, Repr

/-- Model of `backend.MetadataStream`: a labelled metadata stream. -/
structure MetadataStream where
  id : Nat
  payload : String
deriving DecidableEq, Repr

/-- Model of `backend.File`, with the base64 transport encoding already removed: the
payload is the decoded byte string and the digest is the declared SHA-256
value (Go keeps both as strings; the hex/base64 codecs are standard library
collaborators). -/
structure BFile where
  name : String
  mime : String
  digest : Bytes
  payload : Bytes
deriving DecidableEq, Repr

/-- The internal `file` type produced by `verifyContent`. -/
structure CookedFile where
  name : String
  digest : Bytes
  payload : Bytes
deriving DecidableEq, Repr

/-- External collaborators of the record store, passed as parameters:
`hash` is SHA-256 (`util.Digest` / `util.DigestFileBytes`), `detectMIME` is
`http.DetectContentType`, `mimeValid` is `mime.MimeValid`, `baseOk` models
`filepath.Base(name) == name`, `sanitizeOk` models
`norma.Sanitize(name) == name`, `maxMDStreams` is `pd.MetadataStreamsMax`
and `commitOk` injects the health of the `git commit` subprocess. -/
structure Env where
  hash : Bytes → Bytes
  detectMIME : Bytes → String
  mimeValid : String → Bool
  baseOk : String → Bool
  sanitizeOk : String → Bool
  maxMDStreams : Nat
  commitOk : Bool

/-- Model of the `pd.ErrorStatusT` codes carried by `backend.ContentVerificationError`. -/
inductive VStatus
  | invalidMDID
  | duplicateMDID
  | invalidFilename
  | empty
  | duplicateFilename
  | invalidFileDigest
  | invalidBase64
  | invalidMIMEType
  | unsupportedMIMEType
  | fileNotFound
deriving DecidableEq, Repr

/-- Error taxonomy observable at the backend boundary (backend package
errors, `fmt.Errorf` cases of gitbe.go, and `errNothingToDo`). -/
inductive GErr
  | contentVerification (code : VStatus) (ctx : List String)
  | recordNotFound
  | recordLocked
  | noChanges
  | shutdown
  | stateTransition (fromS toS : MDStatus)
  | invalidStatus (s : MDStatus)
  | gitFail
  | nothingToDo
  | invalidDigestLen
  | invalidGitOutput
  | invalidSha1Len
  | invalidExtendedDigest
  | countMismatch
  | notEnoughConfirmations (d : String)
  | invalidDigest (d : String)
deriving DecidableEq, Repr

/-! Association list helpers (files of a directory, keyed stores) -/
/-- Set key `k` to `v`: replace the existing entry or append a new one. -/
def aset {α : Type} (k : String) (v : α) : List (String × α) → List (String × α)
  | [] => [(k, v)]
  | (k', v') :: rest => if k' == k then (k, v) :: rest else (k', v') :: aset k v rest

/-- Look up key `k`. -/
def aget {α : Type} (k : String) (l : List (String × α)) : Option α :=
  (l.find? (fun p => p.1 == k)).map (fun p => p.2)

/-- Set numeric key `k` (metadata stream ids). -/
def nset {α : Type} (k : Nat) (v : α) : List (Nat × α) → List (Nat × α)
  | [] => [(k, v)]
  | (k', v') :: rest => if k' == k then (k, v) :: rest else (k', v') :: nset k v rest

/-- Look up numeric key `k`. -/
def nget {α : Type} (k : Nat) (l : List (Nat × α)) : Option α :=
  (l.find? (fun p => p.1 == k)).map (fun p => p.2)

/-! Content verification (`verifyContent`) -/
/-- Per-file checks and cooking loop of `verifyContent`: sanitized name,
digest well-formed, digest matches the payload hash, declared MIME equals
the detected MIME and is whitelisted. -/
def cookFiles (env : Env) : List BFile → Except GErr (List CookedFile)
  | [] => .ok []
  | f :: rest =>
    if !env.sanitizeOk f.name then
      .error (.contentVerification .invalidFilename [f.name])
    else if !(f.digest.length == 32) then
      .error (.contentVerification .invalidFileDigest [f.name])
    else if !(env.hash f.payload == f.digest) then
      .error (.contentVerification .invalidFileDigest [f.name])
    else if !(env.detectMIME f.payload == f.mime) then
      .error (.contentVerification .invalidMIMEType [f.name, env.detectMIME f.payload])
    else if !(env.mimeValid f.mime) then
      .error (.contentVerification .unsupportedMIMEType [f.name, f.mime])
    else
      match cookFiles env rest with
      | .error e => .error e
      | .ok fa => .ok (⟨f.name, env.hash f.payload, f.payload⟩ :: fa)

/-- Model of `verifyContent`: validate metadata streams, filenames, duplicates, and
cook the file array. -/
def verifyContent (env : Env) (metadata : List MetadataStream) (files : List BFile)
    (filesDel : List String) : Except GErr (List CookedFile) :=
  match metadata.find? (fun v => env.maxMDStreams - 1 < v.id) with
  | some v => .error (.contentVerification .invalidMDID [toString v.id])
  | none =>
  match metadata.find? (fun m => 2 ≤ (metadata.filter (fun m' => m'.id == m.id)).length) with
  | some m => .error (.contentVerification .duplicateMDID [toString m.id])
  | none =>
  match files.find? (fun f => !env.baseOk f.name) with
  | some f => .error (.contentVerification .invalidFilename [f.name])
  | none =>
  match filesDel.find? (fun v => !env.baseOk v) with
  | some v => .error (.contentVerification .invalidFilename [v])
  | none =>
  if files.isEmpty then .error (.contentVerification .empty [])
  else
  match files.find? (fun f =>
      2 ≤ (files.filter (fun g => g.name == f.name)).length ||
      filesDel.contains f.name) with
  | some f => .error (.contentVerification .duplicateFilename [f.name])
  | none => cookFiles env files

/-! Staging-tier repository state

The embedding collapses per-branch working trees into one working tree plus
the last committed tree: the verified claims do not depend on branch
isolation.  `head` is the committed tree, `work` the working tree;
`git diff` is empty exactly when the two coincide, `git commit` copies
`work` into `head`, `git stash` (as used here, to discard uncommitted
changes) copies `head` back into `work`. -/
/-- On-disk content of the unvetted repository, per record id:
`recordmetadata.json`, the `payload/` directory, and the
`<id>.metadata.txt` streams. -/
structure Tree where
  mds : List (String × RecordMetadata)
  payloads : List (String × List (String × Bytes))
  metas : List (String × List (Nat × String))
deriving DecidableEq, Repr

/-- State of the staging-tier (`unvetted`) repository plus the backend
shutdown flag. -/
structure RepoState where
  branches : List String
  current : String
  commits : List String
  head : Tree
  work : Tree
  shutdown : Bool
deriving DecidableEq, Repr

/-- Model of `git checkout -b id`: fails when the branch already exists. -/
def gitNewBranch (st : RepoState) (b : String) : Except (GErr × RepoState) RepoState :=
  if st.branches.contains b then .error (.gitFail, st)
  else .ok { st with branches := b :: st.branches, current := b }

/-- Model of `git branch -D id`: fails when the branch does not exist. -/
def gitBranchDelete (st : RepoState) (b : String) : Except (GErr × RepoState) RepoState :=
  if st.branches.contains b then .ok { st with branches := st.branches.erase b }
  else .error (.gitFail, st)

/-- Model of `git stash` as used by the failure paths: discard uncommitted changes. -/
def gitStash (st : RepoState) : RepoState := { st with work := st.head }

/-- Model of `git commit`: gated by the injected subprocess health flag. -/
def gitCommit (env : Env) (st : RepoState) (msg : String) :
    Except (GErr × RepoState) RepoState :=
  if env.commitOk then .ok { st with commits := msg :: st.commits, head := st.work }
  else .error (.gitFail, st)

/-- Write `recordmetadata.json` for `id` (`updateMD`). -/
def setMD (st : RepoState) (id : String) (md : RecordMetadata) : RepoState :=
  { st with work := { st.work with mds := aset id md st.work.mds } }

/-- Replace the payload directory of `id`. -/
def setPayload (st : RepoState) (id : String) (dir : List (String × Bytes)) : RepoState :=
  { st with work := { st.work with payloads := aset id dir st.work.payloads } }

/-- Model of `updateMetadata`: apply the overwrites first (replace the stream file),
then the appends (append to the stream file, creating it if absent). -/
def updateMetadata (st : RepoState) (id : String)
    (mdAppend mdOverwrite : List MetadataStream) : RepoState :=
  let s0 := (aget id st.work.metas).getD []
  let s1 := mdOverwrite.foldl (fun s m => nset m.id m.payload s) s0
  let s2 := mdAppend.foldl (fun s m => nset m.id ((nget m.id s).getD "" ++ m.payload) s) s1
  { st with work := { st.work with metas := aset id s2 st.work.metas } }

/-- Model of `checkoutRecordBranch`: check out branch `id` when a digest-named branch
of that name exists; otherwise refuse with `ErrRecordNotFound` when the
record directory does not exist either, and create the branch when it does.
The returned boolean reports whether the branch already existed. -/
def checkoutRecordBranch (st : RepoState) (id : String) :
    Except (GErr × RepoState) (Bool × RepoState) :=
  if st.branches.any (fun v => isDigestStr v && v == id) then
    .ok (true, { st with current := id })
  else if (aget id st.work.mds).isNone then
    .error (.recordNotFound, st)
  else
    match gitNewBranch st id with
    | .error e => .error e
    | .ok st' => .ok (false, st')

/-- The status gate of `updateRecord`: the record may be updated only when
its status is one of `Vetted`, `Unvetted`, `IterationUnvetted`, `Locked`. -/
def updateableStatus (s : MDStatus) : Bool :=
  s == .vetted || s == .unvetted || s == .iterationUnvetted || s == .locked

/-- Sort a payload directory listing by filename (`ioutil.ReadDir` returns
entries sorted by name). -/
def sortByName (dir : List (String × Bytes)) : List (String × Bytes) :=
  List.insertionSort (fun a b => a.1 ≤ b.1) dir

/-- Apply the mutation block of `updateRecord` to the working tree: file
writes, then file deletions, then metadata overwrites and appends. -/
def applyChanges (st : RepoState) (id : String) (mdAppend mdOverwrite : List MetadataStream)
    (fa : List CookedFile) (filesDel : List String) : RepoState :=
  let dir0 := (aget id st.work.payloads).getD []
  let dir1 := fa.foldl (fun d f => aset f.name f.payload d) dir0
  let dir2 := filesDel.foldl (fun d v => d.filter (fun p => !(p.1 == v))) dir1
  updateMetadata (setPayload st id dir2) id mdAppend mdOverwrite

/-- The file digests of record `id` as recomputed by `updateRecord`:
`ioutil.ReadDir` lists the payload directory sorted by name and each file is
re-hashed (`util.DigestFileBytes`). -/
def recordHashes (env : Env) (st3 : RepoState) (id : String) : List Bytes :=
  (sortByName ((aget id st3.work.payloads).getD [])).map (fun p => env.hash p.2)

/-- The new `RecordMetadata` written by a successful `updateRecord`:
version bumped, status `IterationUnvetted`, merkle root recomputed over the
resulting file set. -/
def newIterationMD (env : Env) (st3 : RepoState) (id : String)
    (brm : RecordMetadata) (token : Bytes) (now : Int) : RecordMetadata :=
  ⟨brm.version + 1, .iterationUnvetted, merkleRoot env.hash (recordHashes env st3 id),
   now, token⟩

/-- Tail of `updateRecord` run on the mutated working tree: fail with an
`Empty` content error when the payload directory is unreadable, refuse with
`ErrNoChanges` on an empty diff, else write the new `RecordMetadata` and
commit `"Update record <id>"`. -/
def updateRecordCommit (env : Env) (st3 : RepoState) (id : String)
    (brm : RecordMetadata) (token : Bytes) (now : Int) :
    Except (GErr × RepoState) (RecordMetadata × RepoState) :=
  if (aget id st3.work.payloads).isNone then
    .error (.contentVerification .empty [], st3)
  else if st3.work == st3.head then .error (.noChanges, st3)
  else
    match gitCommit env (setMD st3 id (newIterationMD env st3 id brm token now))
        ("Update record " ++ id) with
    | .error e => .error e
    | .ok st5 => .ok (newIterationMD env st3 id brm token now, st5)

/-- Model of `updateRecord`: check out the record branch, gate on the status, verify
the deletions, apply the changes, recompute the file digests, refuse with
`ErrNoChanges` on an empty diff, write the new `RecordMetadata` and commit. -/
def updateRecord (env : Env) (st : RepoState) (token : Bytes)
    (mdAppend mdOverwrite : List MetadataStream) (fa : List CookedFile)
    (filesDel : List String) (now : Int) :
    Except (GErr × RepoState) (RecordMetadata × RepoState) :=
  match checkoutRecordBranch st (hexOf token) with
  | .error e => .error e
  | .ok (_, st1) =>
  match aget (hexOf token) st1.work.mds with
  | none => .error (.recordNotFound, st1)
  | some brm =>
  if !updateableStatus brm.status then .error (.invalidStatus brm.status, st1)
  else
  match filesDel.find? (fun v =>
      (aget v ((aget (hexOf token) st1.work.payloads).getD [])).isNone) with
  | some v => .error (.contentVerification .fileNotFound [v], st1)
  | none =>
  updateRecordCommit env
    (applyChanges st1 (hexOf token) mdAppend mdOverwrite fa filesDel)
    (hexOf token) brm token now

/-- Model of `UpdateUnvettedRecord`: verify the content (an `Empty` content error is
allowed), check out master, run `updateRecord`; on `ErrNoChanges` return the
error without stashing, on any other error stash, and restore master on
every path. -/
def UpdateUnvettedRecord (env : Env) (st : RepoState) (token : Bytes)
    (mdAppend mdOverwrite : List MetadataStream) (filesAdd : List BFile)
    (filesDel : List String) (now : Int) :
    Except (GErr × RepoState) (RecordMetadata × RepoState) :=
  let run := fun (fa : List CookedFile) =>
    if st.shutdown then .error (.shutdown, st)
    else
      let st1 := { st with current := "master" }
      match updateRecord env st1 token mdAppend mdOverwrite fa filesDel now with
      | .error (.noChanges, stF) => .error (.noChanges, { stF with current := "master" })
      | .error (e, stF) => .error (e, { gitStash stF with current := "master" })
      | .ok (md, stF) => .ok (md, { stF with current := "master" })
  match verifyContent env (mdAppend ++ mdOverwrite) filesAdd filesDel with
  | .error (.contentVerification .empty ctx) =>
    let _ := ctx
    run []
  | .error e => .error (e, st)
  | .ok fa => run fa

/-- Model of `newRecord`: create branch `<id>`, materialize payload files and
metadata streams, write `RecordMetadata` (status `Unvetted`, version 1,
merkle root over the input file digests in input order) and commit
`"Add record <id>"`. -/
def newRecord (env : Env) (st : RepoState) (token : Bytes)
    (metadata : List MetadataStream) (fa : List CookedFile) (now : Int) :
    Except (GErr × RepoState) (RecordMetadata × RepoState) :=
  let id := hexOf token
  match gitNewBranch st id with
  | .error e => .error e
  | .ok st1 =>
    let dir0 := (aget id st1.work.payloads).getD []
    let dir1 := fa.foldl (fun d f => aset f.name f.payload d) dir0
    let hashes := fa.map (fun f => f.digest)
    let st2 := setPayload st1 id dir1
    let s0 := (aget id st2.work.metas).getD []
    let s1 := metadata.foldl (fun s m => nset m.id m.payload s) s0
    let st3 := { st2 with work := { st2.work with metas := aset id s1 st2.work.metas } }
    let md : RecordMetadata := ⟨1, .unvetted, merkleRoot env.hash hashes, now, token⟩
    let st4 := setMD st3 id md
    match gitCommit env st4 ("Add record " ++ id) with
    | .error e => .error e
    | .ok st5 => .ok (md, st5)

/-- Model of `New`: verify the content, check out master and pull, run `newRecord`;
on error stash (no branch delete) and restore master. -/
def New (env : Env) (st : RepoState) (metadata : List MetadataStream)
    (files : List BFile) (token : Bytes) (now : Int) :
    Except (GErr × RepoState) (RecordMetadata × RepoState) :=
  match verifyContent env metadata files [] with
  | .error e => .error (e, st)
  | .ok fa =>
    if st.shutdown then .error (.shutdown, st)
    else
      let st1 := { st with current := "master" }
      match newRecord env st1 token metadata fa now with
      | .error (e, stF) => .error (e, { gitStash stF with current := "master" })
      | .ok (md, stF) => .ok (md, { stF with current := "master" })

/-- Model of `rebasePR`: push branch `id` into the vetted repository and rebase it
into vetted master, then resynchronize the staging tier and delete the local
branch.  The vetted-repository effects and the subprocess plumbing are
modelled as successful; what remains observable on the staging tier is the
branch deletion and the return to master. -/
def rebasePR (st : RepoState) (id : String) : Except (GErr × RepoState) RepoState :=
  if !(st.branches.contains id) then
    .error (.recordNotFound, { st with current := "master" })
  else gitBranchDelete { st with current := "master" } id

/-- Model of `setUnvettedStatus`: check out branch `<id>`, load the record, and apply
the requested status transition.  Only `Unvetted`/`IterationUnvetted` to
`Vetted` (with promotion via `rebasePR`) and `Unvetted` to `Censored` are
implemented; every other pair falls into the default branch returning
`StateTransitionError{from, to}` before any mutation. -/
def setUnvettedStatus (env : Env) (st : RepoState) (token : Bytes)
    (status : MDStatus) (mdAppend mdOverwrite : List MetadataStream) (now : Int) :
    Except (GErr × RepoState) (RecordMetadata × RepoState) :=
  let id := hexOf token
  if !(st.branches.contains id) then .error (.recordNotFound, st)
  else
    let st0 := { st with current := id }
    match aget id st0.work.mds with
    | none => .error (.recordNotFound, st0)
    | some md =>
      if (md.status == .unvetted || md.status == .iterationUnvetted) &&
          status == .vetted then
        let md' := { md with status := .vetted, version := md.version + 1, timestamp := now }
        let st1 := setMD st0 id md'
        let st2 := updateMetadata st1 id mdAppend mdOverwrite
        match gitCommit env st2 ("Update record status " ++ id ++ " published") with
        | .error e => .error e
        | .ok st3 =>
          match rebasePR st3 id with
          | .error e => .error e
          | .ok st4 => .ok (md', st4)
      else if md.status == .unvetted && status == .censored then
        let md' := { md with status := .censored, version := md.version + 1, timestamp := now }
        let st1 := setMD st0 id md'
        let st2 := updateMetadata st1 id mdAppend mdOverwrite
        match gitCommit env st2 ("Update record status " ++ id ++ " censored") with
        | .error e => .error e
        | .ok st3 => .ok (md', st3)
      else .error (.stateTransition md.status status, st0)

/-- Model of `SetUnvettedStatus`: lock and shutdown check, run `setUnvettedStatus`;
on error stash and restore master (no branch delete). -/
def SetUnvettedStatus (env : Env) (st : RepoState) (token : Bytes)
    (status : MDStatus) (mdAppend mdOverwrite : List MetadataStream) (now : Int) :
    Except (GErr × RepoState) (RecordMetadata × RepoState) :=
  if st.shutdown then .error (.shutdown, st)
  else
    match setUnvettedStatus env st token status mdAppend mdOverwrite now with
    | .error (e, stF) => .error (e, { gitStash stF with current := "master" })
    | .ok (md, stF) => .ok (md, { stF with current := "master" })

/-- Inner `updateVettedMetadata`: create the temporary branch `<id>_tmp`,
apply the metadata changes, refuse with `ErrNoChanges` when nothing changed,
commit and promote via `rebasePR`. -/
def updateVettedMetadata (env : Env) (st : RepoState) (id idTmp : String)
    (mdAppend mdOverwrite : List MetadataStream) : Except (GErr × RepoState) RepoState :=
  match gitNewBranch st idTmp with
  | .error e => .error e
  | .ok st1 =>
    if (updateMetadata st1 id mdAppend mdOverwrite).work ==
        (updateMetadata st1 id mdAppend mdOverwrite).head then
      .error (.noChanges, updateMetadata st1 id mdAppend mdOverwrite)
    else
      match gitCommit env (updateMetadata st1 id mdAppend mdOverwrite)
          ("Update record metadata " ++ id) with
      | .error e => .error e
      | .ok st3 => rebasePR st3 idTmp

/-- Model of `UpdateVettedMetadata`: verify the metadata (an `Empty` content error is
allowed), check out master and pull, refuse with `ErrRecordNotFound` when
the record directory is absent and with `ErrRecordLocked` when the record
status is `Locked`; run the inner update and, on any inner error, stash,
restore master and delete the temporary branch. -/
def UpdateVettedMetadataRun (env : Env) (st : RepoState) (token : Bytes)
    (mdAppend mdOverwrite : List MetadataStream) :
    Except (GErr × RepoState) RepoState :=
  if st.shutdown then .error (.shutdown, st)
  else
    match aget (hexOf token) st.work.mds with
    | none => .error (.recordNotFound, { st with current := "master" })
    | some md =>
      if md.status == .locked then .error (.recordLocked, { st with current := "master" })
      else
        match updateVettedMetadata env { st with current := "master" } (hexOf token)
            (hexOf token ++ "_tmp") mdAppend mdOverwrite with
        | .ok stF => .ok { stF with current := "master" }
        | .error (e, stF) =>
          match gitBranchDelete { gitStash stF with current := "master" }
              (hexOf token ++ "_tmp") with
          | .error e2 => .error e2
          | .ok stD => .error (e, stD)

/-- Model of `UpdateVettedMetadata` proper: content verification (an `Empty` content
error is allowed) followed by `UpdateVettedMetadataRun`. -/
def UpdateVettedMetadata (env : Env) (st : RepoState) (token : Bytes)
    (mdAppend mdOverwrite : List MetadataStream) : Except (GErr × RepoState) RepoState :=
  match verifyContent env (mdAppend ++ mdOverwrite) [] [] with
  | .error (.contentVerification .empty _) =>
    UpdateVettedMetadataRun env st token mdAppend mdOverwrite
  | .error e => .error (e, st)
  | .ok _ => UpdateVettedMetadataRun env st token mdAppend mdOverwrite

/-! Anchoring subsystem

State of the publication-tier (`vetted`) repository as seen by the anchor
engine.  `log` is the `git log --pretty=oneline` output, newest first, with
the commit digest already hex-decoded into bytes.  `lastAnchor` and
`unconfirmed` model the anchor-state DB keys `last` and `unconfirmed`
(their record types live in a gitbe file not under `src/`; modelled from the
spec, section 4.3).  `submitted` records every digest batch handed to the
timestamp client, `committed` every commit created by the anchor engine. -/
/-- One line of `git log --pretty=oneline`: commit digest and subject. -/
structure LogLine where
  digest : Bytes
  subject : String
deriving DecidableEq, Repr

/-- Model of `v1.ChainInformation` of the dcrtime API. -/
structure ChainInformation where
  chainTimestamp : Int
  transaction : String
deriving DecidableEq, Repr

/-- Model of `v1.VerifyDigest` of the dcrtime API (digest hex, chain info). -/
structure VerifyDigest where
  digest : String
  chainTimestamp : Int
  transaction : String
deriving DecidableEq, Repr

/-- Anchor-engine state. -/
structure AnchorState where
  log : List LogLine
  lastAnchor : Bytes
  unconfirmed : List Bytes
  auditTrail : List String
  anchorsDir : List (String × ChainInformation)
  committed : List String
  testAnchors : List (String × Bool)
  submitted : List (List Bytes)
  test : Bool
deriving DecidableEq, Repr

/-- The parse loop of `deltaCommits`: skip anchor-confirmation subjects,
validate the 20-byte digest size and zero-extend each remaining digest to
32 bytes, collecting parallel digest and subject vectors. -/
def parseLog : List LogLine → Except GErr (List Bytes × List String)
  | [] => .ok ([], [])
  | l :: rest =>
    if regexAnchorConfirmation l.subject then parseLog rest
    else if !(l.digest.length == 20) then .error .invalidSha1Len
    else
      match parseLog rest with
      | .error e => .error e
      | .ok (ds, ms) => .ok ((l.digest ++ List.replicate 12 0) :: ds, l.subject :: ms)

/-- Model of `deltaCommits`: sanity-check the `lastAnchor` digest size, compute the
commit range (`lastAnchor..head`, or the full history when `lastAnchor` is
empty; `git log A..B` on the linear master history yields the commits
strictly newer than `A`), refuse with `errNothingToDo` when the last anchor
already is the head, parse the range, and refuse with `errNothingToDo` when
no commits remain after the confirmation exclusion.  `deltaFinish` is the
tail of `deltaCommits` run on the selected range: refuse empty git output,
parse, and refuse with `errNothingToDo` when nothing remains. -/
def deltaFinish (out : List LogLine) :
    Except GErr (List Bytes × List String × List LogLine) :=
  if out.isEmpty then Except.error GErr.invalidGitOutput
  else
    match parseLog out with
    | .error e => .error e
    | .ok (ds, ms) =>
      if ds.isEmpty then .error .nothingToDo
      else .ok (ds, ms, out)

/-- Model of `deltaCommits` proper: see the comment above `deltaFinish`. -/
def deltaCommits (log : List LogLine) (lastAnchor : Bytes) :
    Except GErr (List Bytes × List String × List LogLine) :=
  if !(lastAnchor.length == 0 || lastAnchor.length == 32) then .error .invalidDigestLen
  else
    match log.head? with
    | none => .error .gitFail
    | some latest =>
      if lastAnchor.length == 0 then deltaFinish log
      else
        match unextendSHA256 lastAnchor with
        | none => .error .invalidExtendedDigest
        | some sha1Last =>
          if sha1Last == latest.digest then .error .nothingToDo
          else deltaFinish (log.takeWhile (fun l => !(l.digest == sha1Last)))

/-- Model of `anchor`: in test mode mark the trailing anchor key in `testAnchors`;
otherwise submit the digest batch to the timestamp client
(`util.Timestamp`). -/
def anchorOp (st : AnchorState) (digests : List Bytes) : AnchorState :=
  if st.test then
    { st with testAnchors := (
        aset (hexOf ((digests.getLast?).getD [])) false st.testAnchors) }
  else { st with submitted := digests :: st.submitted }

/-- One audit line: `"<digest_hex> <subject>\n"`. -/
def auditLine (d : Bytes) (m : String) : String := hexOf d ++ " " ++ m ++ "\n"

/-- Model of `appendAuditTrail` with the merkle root already hex-encoded: append the
record header and the trimmed lines, each prefixed by the timestamp. -/
def appendAuditTrailS (st : AnchorState) (ts : Int) (mrHex : String)
    (lines : List String) : AnchorState :=
  { st with auditTrail := (st.auditTrail ++
      (toString ts ++ ": --- Audit Trail Record " ++ mrHex ++ " ---") ::
      lines.map (fun l => toString ts ++ ": " ++ goTrim l)) }

/-- Model of `anchorRepo`: fsck master, read the last anchor, compute the delta
commits, build the audit block from the digests in delta order (before the
merkle computation sorts them), create the anchor record whose key is the
merkle root of the digests (`newAnchorRecord` lives outside `src/`;
modelled from the spec, section 4.5 step 4), submit the digests with the
anchor key appended, prepend the anchor marker line to the commit message,
append the audit block to the audit trail, and commit on master. -/
def anchorRepo (hash : Bytes → Bytes) (st : AnchorState) (now : Int) :
    Except (GErr × AnchorState) (Bytes × AnchorState) :=
  match deltaCommits st.log st.lastAnchor with
  | .error e => .error (e, st)
  | .ok (digests, messages, _) =>
    if !(digests.length == messages.length) then .error (.countMismatch, st)
    else
      let auditLines := List.zipWith auditLine digests messages
      let commitMessage0 := String.join auditLines
      let anchorKey := merkleRoot hash digests
      let st1 := anchorOp st (digests ++ [anchorKey])
      let commitMessage := markerAnchor ++ " " ++ hexOf anchorKey ++ "\n\n" ++ commitMessage0
      let st2 := appendAuditTrailS st1 now (hexOf anchorKey) auditLines
      let st3 := { st2 with committed := commitMessage :: st2.committed }
      .ok (anchorKey, st3)

/-- Body of the confirmation loop of `afterAnchorVerify` for one reply: a
zero chain timestamp means not enough confirmations and is returned as an
error; otherwise append the TX line to the audit trail, store the chain
information under `anchors/<merkle_root_hex>`, commit the anchor
confirmation, and in test mode mark the anchor as confirmed. -/
def confirmTxLine (vr : VerifyDigest) : String :=
  vr.digest ++ " anchored in TX " ++ vr.transaction ++ "\n"

/-- The mutation block of a successful confirmation: audit-trail append,
`anchors/<merkle_root_hex>` write, confirmation commit. -/
def confirmApply (st : AnchorState) (vr : VerifyDigest) : AnchorState :=
  let st1 := appendAuditTrailS st vr.chainTimestamp vr.digest [confirmTxLine vr]
  let st2 := { st1 with anchorsDir := (
      aset vr.digest ⟨vr.chainTimestamp, vr.transaction⟩ st1.anchorsDir) }
  { st2 with committed := (markerAnchorConfirmation ++ " " ++ vr.digest ++ "\n\n" ++
      confirmTxLine vr) :: st2.committed }

def confirmOne (st : AnchorState) (vr : VerifyDigest) :
    Except (GErr × AnchorState) AnchorState :=
  if vr.chainTimestamp == 0 then .error (.notEnoughConfirmations vr.digest, st)
  else if !(isDigestStr vr.digest) then .error (.invalidDigest vr.digest, st)
  else if st.test then
    .ok { confirmApply st vr with
          testAnchors := (aset vr.digest true (confirmApply st vr).testAnchors) }
  else .ok (confirmApply st vr)

/-- The `for _, vr := range vrs` loop of `afterAnchorVerify`: process the
replies in order, returning at the first failing reply with the state
reached so far. -/
def afterAnchorLoop : AnchorState → List VerifyDigest → AnchorState × Option GErr
  | st, [] => (st, none)
  | st, vr :: rest =>
    match confirmOne st vr with
    | .error (e, s) => (s, some e)
    | .ok s => afterAnchorLoop s rest

/-- Model of `afterAnchorVerify`: under the lock, check out vetted master and run the
confirmation loop (the trailing unvetted checkout and pull have no
observable effect on the anchor state). -/
def afterAnchorVerify (st : AnchorState) (vrs : List VerifyDigest) :
    AnchorState × Option GErr :=
  afterAnchorLoop st vrs

/-! Claim C8: delta-commit computation -/
/-- The commits kept by the parse loop: those whose subject does not match
the anchor-confirmation marker. -/
def keptLines (log : List LogLine) : List LogLine :=
  log.filter (fun l => !regexAnchorConfirmation l.subject)

/-- Concrete anchor-engine state for the `anchorRepo_spec` witness: one
unanchored commit, no previous anchor, production mode. -/
def stW4 : AnchorState :=
  ⟨[⟨List.replicate 20 2, "Add record ab"⟩], [], [], [], [], [], [], [], false⟩

/-- Concrete stand-in for the SHA-256 collaborator (32-byte output). -/
def hashW : Bytes → Bytes :=
  fun l => List.replicate 31 0 ++ [l.foldl (fun a b => a + b) 0 % 256]

/-! Claim C5: zero chain timestamp handling -/
/-- Concrete anchor-engine state for the C5 theorems: one pending merkle
root, production mode. -/
def stW5 : AnchorState :=
  ⟨[⟨List.replicate 20 2, "Add record ab"⟩], [], [List.replicate 32 10], [], [], [],
   [], [], false⟩

/-- Concrete environment for the record-store witnesses: trivial external
collaborators, healthy `git commit`. -/
def envW : Env :=
  ⟨hashW, fun _ => "text/plain; charset=utf-8", fun _ => true,
   fun _ => true, fun _ => true, 16, true⟩

/-- A vetted record stored under id `"ab"` (hex of token `[171]`). -/
def mdW1 : RecordMetadata := ⟨2, .vetted, [], 0, [171]⟩

/-- Concrete staging-tier state with record branch `"ab"` and a vetted
record. -/
def stW1 : RepoState :=
  ⟨["ab"], "master", [], ⟨[("ab", mdW1)], [("ab", [("a.txt", [120])])], [("ab", [])]⟩,
   ⟨[("ab", mdW1)], [("ab", [("a.txt", [120])])], [("ab", [])]⟩, false⟩

/-! Claim C7: record-branch checkout -/
/-- A full-size token and its 64-hex-character record id. -/
def tokenW : Bytes := List.replicate 32 171

/-- The hex id of `tokenW`. -/
def idW : String := hexOf tokenW

/-- A record stored under id `idW` with status `Unvetted`. -/
def mdW7 : RecordMetadata := ⟨1, .unvetted, [], 0, tokenW⟩

/-- Staging-tier state whose record directory `idW` exists while no branch
`idW` exists. -/
def stW7 : RepoState :=
  ⟨[], "master", [], ⟨[(idW, mdW7)], [(idW, [("a.txt", [120])])], [(idW, [])]⟩,
   ⟨[(idW, mdW7)], [(idW, [("a.txt", [120])])], [(idW, [])]⟩, false⟩

/-- A well-formed input file for `envW` (digest matches `hashW`, MIME
matches the trivial detector). -/
def fileW7 : BFile :=
  ⟨"b.txt", "text/plain; charset=utf-8", List.replicate 31 0 ++ [121], [121]⟩

/-! Claim C2: Locked records -/
/-- A `Locked` record stored under id `idW`. -/
def mdW2 : RecordMetadata := ⟨3, .locked, [], 0, tokenW⟩

/-- Staging-tier state holding the locked record, with its branch. -/
def stW2 : RepoState :=
  ⟨[idW], "master", [], ⟨[(idW, mdW2)], [(idW, [("a.txt", [120])])], [(idW, [])]⟩,
   ⟨[(idW, mdW2)], [(idW, [("a.txt", [120])])], [(idW, [])]⟩, false⟩

/-- Clean staging-tier state with branch `idW` and an unvetted record. -/
def stW6 : RepoState :=
  ⟨[idW], "master", [], ⟨[(idW, mdW7)], [(idW, [("a.txt", [120])])], [(idW, [])]⟩,
   ⟨[(idW, mdW7)], [(idW, [("a.txt", [120])])], [(idW, [])]⟩, false⟩

/-- An input file byte-identical to the stored `a.txt`. -/
def fileW6 : BFile :=
  ⟨"a.txt", "text/plain; charset=utf-8", List.replicate 31 0 ++ [120], [120]⟩

/-! Claim C3: merkle root invariant -/
/-- The SHA-256 digests of the payload files of record `id`, in the order
the payload directory is stored. -/
def payloadDigests (env : Env) (st : RepoState) (id : String) : List Bytes :=
  ((aget id st.work.payloads).getD []).map (fun p => env.hash p.2)

/-- Empty staging-tier state for the C3 witness. -/
def stW3 : RepoState := ⟨[], "master", [], ⟨[], [], []⟩, ⟨[], [], []⟩, false⟩

/-- Environment with a failing `git commit` subprocess. -/
def envWbad : Env :=
  ⟨hashW, fun _ => "text/plain; charset=utf-8", fun _ => true,
   fun _ => true, fun _ => true, 16, false⟩

/-- The state left behind by the failed `New` of the C9 counterexample:
branch `idW` still exists. -/
def stW9 : RepoState :=
  ⟨[idW], "master", [], ⟨[], [], []⟩, ⟨[], [], []⟩, false⟩

theorem sortDigests_perm (l : List Bytes) : List.Perm (sortDigests l) l :=
  List.perm_insertionSort _ l

theorem sortDigests_eq_of_perm {l l' : List Bytes} (p : List.Perm l l') :
    sortDigests l = sortDigests l' :=
  List.eq_of_perm_of_sorted
    ((sortDigests_perm l).trans (p.trans (sortDigests_perm l').symm))
    (List.sorted_insertionSort _ l)
    (List.sorted_insertionSort _ l')

/-- The merkle root only depends on the multiset of digests. -/
theorem merkleRoot_eq_of_perm (hash : Bytes → Bytes) {l l' : List Bytes}
    (p : List.Perm l l') : merkleRoot hash l = merkleRoot hash l' := by
  unfold merkleRoot
  rw [sortDigests_eq_of_perm p]

/-! Claim C10: digest extension round-trip -/
/-- C10: for every 20-byte digest `d`, `unextendSHA256 (extendSHA1 d) = d`;
`extendSHA1` produces a 32-byte digest whose last 12 bytes are zero (and
rejects any other input length); `unextendSHA256` accepts exactly the
32-byte inputs whose last 12 bytes are zero and reaches its error branch on
any other input. -/
theorem extendSHA1_unextendSHA256_spec :
    (∀ d : Bytes, d.length = 20 →
      extendSHA1 d = some (d ++ List.replicate 12 0) ∧
      (d ++ List.replicate 12 0).length = 32 ∧
      ((d ++ List.replicate 12 0).drop 20).all (· == 0) = true ∧
      unextendSHA256 (d ++ List.replicate 12 0) = some d) ∧
    (∀ d : Bytes, d.length ≠ 20 → extendSHA1 d = none) ∧
    (∀ d : Bytes, d.length = 32 → (d.drop 20).all (· == 0) = true →
      unextendSHA256 d = some (d.take 20)) ∧
    (∀ d : Bytes, ¬(d.length = 32 ∧ (d.drop 20).all (· == 0) = true) →
      unextendSHA256 d = none) := by
  refine ⟨?_, ?_, ?_, ?_⟩
  · intro d h
    have hdrop : (d ++ List.replicate 12 0).drop 20 = List.replicate 12 0 := by
      rw [show (20 : Nat) = d.length from h.symm]
      exact List.drop_left d _
    have htake : (d ++ List.replicate 12 0).take 20 = d := by
      rw [show (20 : Nat) = d.length from h.symm]
      exact List.take_left d _
    have hlen : (d ++ List.replicate 12 0).length = 32 := by
      simp [h]
    refine ⟨by simp [extendSHA1, h], hlen, by rw [hdrop]; decide, ?_⟩
    · unfold unextendSHA256
      rw [hdrop, hlen, htake]
      simp
  · intro d h
    simp [extendSHA1, h]
  · intro d h1 h2
    unfold unextendSHA256
    rw [h1, h2]
    simp
  · intro d h
    unfold unextendSHA256
    rw [if_neg]
    intro hc
    rw [Bool.and_eq_true] at hc
    exact h ⟨of_decide_eq_true hc.1, hc.2⟩

/-- Concrete instances of `extendSHA1_unextendSHA256_spec`. -/
theorem extendSHA1_unextendSHA256_spec_witness :
    extendSHA1 (List.replicate 20 7) = some (List.replicate 20 7 ++ List.replicate 12 0) ∧
    unextendSHA256 (List.replicate 20 7 ++ List.replicate 12 0) =
      some (List.replicate 20 7) ∧
    extendSHA1 [1, 2] = none ∧
    unextendSHA256 (List.replicate 33 0) = none :=
  ⟨(extendSHA1_unextendSHA256_spec.1 (List.replicate 20 7) (by decide)).1,
   (extendSHA1_unextendSHA256_spec.1 (List.replicate 20 7) (by decide)).2.2.2,
   extendSHA1_unextendSHA256_spec.2.1 [1, 2] (by decide),
   extendSHA1_unextendSHA256_spec.2.2.2 (List.replicate 33 0) (by decide)⟩

theorem parseLog_ok_shape : ∀ (log : List LogLine) (ds : List Bytes) (ms : List String),
    parseLog log = .ok (ds, ms) →
    ds = (keptLines log).map (fun l => l.digest ++ List.replicate 12 0) ∧
    ms = (keptLines log).map (fun l => l.subject)
  | [], ds, ms, h => by
    simp only [parseLog, Except.ok.injEq, Prod.mk.injEq] at h
    simp [keptLines, ← h.1, ← h.2]
  | l :: rest, ds, ms, h => by
    cases hc : regexAnchorConfirmation l.subject with
    | true =>
      rw [parseLog, if_pos hc] at h
      have ih := parseLog_ok_shape rest ds ms h
      simp only [keptLines, List.filter_cons, hc] at ih ⊢
      simpa using ih
    | false =>
      rw [parseLog, if_neg (by simp [hc])] at h
      cases hl : l.digest.length == 20 with
      | false =>
        rw [if_pos (by simp [hl])] at h
        exact absurd h (by simp)
      | true =>
        rw [if_neg (by simp [hl])] at h
        revert h
        match hrec : parseLog rest with
        | .error e => intro h; exact absurd h (by simp)
        | .ok (ds2, ms2) =>
          intro h
          simp only [Except.ok.injEq, Prod.mk.injEq] at h
          have ih := parseLog_ok_shape rest ds2 ms2 hrec
          simp only [keptLines, List.filter_cons, hc] at ih ⊢
          simp only [← h.1, ← h.2, List.map_cons, Bool.not_false, if_pos]
          exact ⟨by rw [ih.1], by rw [ih.2]⟩

theorem parseLog_all_confirmations (log : List LogLine)
    (h : ∀ l ∈ log, regexAnchorConfirmation l.subject = true) :
    parseLog log = .ok ([], []) := by
  induction log with
  | nil => rfl
  | cons l rest ih =>
    rw [parseLog, if_pos (h l (by simp))]
    exact ih fun x hx => h x (List.mem_cons_of_mem _ hx)

theorem unextendSHA256_some {d s : Bytes} (h : unextendSHA256 d = some s) :
    d.length = 32 ∧ s = d.take 20 := by
  unfold unextendSHA256 at h
  split at h
  · next hc =>
    rw [Bool.and_eq_true] at hc
    simp only [Option.some.injEq] at h
    exact ⟨of_decide_eq_true hc.1, h.symm⟩
  · exact absurd h (by simp)

theorem deltaFinish_ok (out : List LogLine) (ds : List Bytes) (ms : List String)
    (raw : List LogLine) (h : deltaFinish out = .ok (ds, ms, raw)) :
    raw = out ∧ ds.length = ms.length ∧
    ds = (keptLines raw).map (fun l => l.digest ++ List.replicate 12 0) ∧
    ms = (keptLines raw).map (fun l => l.subject) ∧ ds ≠ [] := by
  unfold deltaFinish at h
  split at h
  · exact absurd h (by simp)
  · split at h
    · exact absurd h (by simp)
    · next ds2 ms2 hrec =>
      split at h
      · exact absurd h (by simp)
      · next hde =>
        simp only [Except.ok.injEq, Prod.mk.injEq] at h
        obtain ⟨hds, hms, hout⟩ := h
        subst hds; subst hms; subst hout
        have hsh := parseLog_ok_shape out ds2 ms2 hrec
        refine ⟨rfl, by rw [hsh.1, hsh.2]; simp, hsh.1, hsh.2, by simpa using hde⟩

theorem deltaCommits_ok_shape {log : List LogLine} {lastAnchor : Bytes}
    {ds : List Bytes} {ms : List String} {raw : List LogLine}
    (h : deltaCommits log lastAnchor = .ok (ds, ms, raw)) :
    ds.length = ms.length ∧
    ds = (keptLines raw).map (fun l => l.digest ++ List.replicate 12 0) ∧
    ms = (keptLines raw).map (fun l => l.subject) ∧
    ds ≠ [] := by
  unfold deltaCommits at h
  split at h
  · exact absurd h (by simp)
  · split at h
    · exact absurd h (by simp)
    · split at h
      · exact (deltaFinish_ok _ _ _ _ h).2
      · split at h
        · exact absurd h (by simp)
        · split at h
          · exact absurd h (by simp)
          · exact (deltaFinish_ok _ _ _ _ h).2

/-- C8: when `deltaCommits` succeeds, the returned digest vector is exactly
the zero-extension to 32 bytes of the 20-byte digests of the commits whose
subject does not match the anchor-confirmation marker, the subject vector
lists exactly those subjects (so both vectors have equal length and are
nonempty); a (nonempty) range consisting only of confirmation commits
yields `errNothingToDo`, as does a last-anchor digest that already equals
the repository head. -/
theorem deltaCommits_spec :
    (∀ (log : List LogLine) (lastAnchor : Bytes) (ds : List Bytes)
        (ms : List String) (raw : List LogLine),
      deltaCommits log lastAnchor = .ok (ds, ms, raw) →
      ds.length = ms.length ∧
      ds = (keptLines raw).map (fun l => l.digest ++ List.replicate 12 0) ∧
      ms = (keptLines raw).map (fun l => l.subject) ∧
      ds ≠ []) ∧
    (∀ (log : List LogLine),
      log ≠ [] →
      (∀ l ∈ log, regexAnchorConfirmation l.subject = true) →
      deltaCommits log [] = .error .nothingToDo) ∧
    (∀ (l0 : LogLine) (logRest : List LogLine) (lastAnchor : Bytes),
      unextendSHA256 lastAnchor = some l0.digest →
      deltaCommits (l0 :: logRest) lastAnchor = .error .nothingToDo) := by
  refine ⟨?_, ?_, ?_⟩
  · intro log lastAnchor ds ms raw h
    exact deltaCommits_ok_shape h
  · intro log hne hall
    unfold deltaCommits
    rw [if_neg (by simp)]
    rcases log with _ | ⟨latest, tail⟩
    · exact absurd rfl hne
    · simp only [List.head?]
      rw [if_pos (by decide)]
      unfold deltaFinish
      rw [if_neg (by simp), parseLog_all_confirmations _ hall]
      simp
  · intro l0 logRest lastAnchor hun
    have hlen := (unextendSHA256_some hun).1
    unfold deltaCommits
    rw [if_neg (by simp [hlen])]
    simp only [List.head?]
    rw [if_neg (by simp [hlen])]
    simp only [hun]
    rw [if_pos (by simp)]

/-- Concrete instances of `deltaCommits_spec`: a two-line history whose
newest commit is an anchor confirmation yields only the older commit,
zero-extended; a history of confirmations only, and a last anchor equal to
the head, both yield `errNothingToDo`. -/
theorem deltaCommits_spec_witness :
    ([List.replicate 20 2 ++ List.replicate 12 0].length = ["Add record ab"].length ∧
     [List.replicate 20 2 ++ List.replicate 12 0] ≠ []) ∧
    deltaCommits
      [⟨List.replicate 20 1,
        "Anchor confirmation " ++ String.mk (List.replicate 64 'a')⟩] [] =
      .error .nothingToDo ∧
    deltaCommits [⟨List.replicate 20 3, "Add record cd"⟩]
      (List.replicate 20 3 ++ List.replicate 12 0) = .error .nothingToDo := by
  have h1 := deltaCommits_spec.1
    [⟨List.replicate 20 1,
      "Anchor confirmation " ++ String.mk (List.replicate 64 'a')⟩,
     ⟨List.replicate 20 2, "Add record ab"⟩] []
    [List.replicate 20 2 ++ List.replicate 12 0] ["Add record ab"]
    [⟨List.replicate 20 1,
      "Anchor confirmation " ++ String.mk (List.replicate 64 'a')⟩,
     ⟨List.replicate 20 2, "Add record ab"⟩] (by decide)
  refine ⟨⟨h1.1, h1.2.2.2⟩, ?_, ?_⟩
  · exact deltaCommits_spec.2.1 _ (by decide) (by decide)
  · exact deltaCommits_spec.2.2 _ _ _ (by decide)

/-! Claim C4: anchoring a repository -/
/-- C4: for every nonempty set of delta commits, `anchorRepo` submits to the
timestamp client exactly the extended commit digests with the anchor
record's merkle root appended as the last element, creates exactly one
commit whose message is the anchor marker line `"Anchor <merkle_root_hex>"`
followed by a blank line and the per-commit audit block, and appends that
audit block — built from the digests in delta order, before the merkle
computation sorts them — to the audit trail. -/
theorem anchorRepo_spec (hash : Bytes → Bytes) (st : AnchorState) (now : Int)
    (ds : List Bytes) (ms : List String) (raw : List LogLine)
    (htest : st.test = false)
    (hd : deltaCommits st.log st.lastAnchor = .ok (ds, ms, raw)) :
    ∃ stF, anchorRepo hash st now = .ok (merkleRoot hash ds, stF) ∧
      stF.submitted = (ds ++ [merkleRoot hash ds]) :: st.submitted ∧
      stF.committed = (markerAnchor ++ " " ++ hexOf (merkleRoot hash ds) ++ "\n\n" ++
        String.join (List.zipWith auditLine ds ms)) :: st.committed ∧
      stF.auditTrail = st.auditTrail ++
        (toString now ++ ": --- Audit Trail Record " ++ hexOf (merkleRoot hash ds) ++
          " ---") ::
        (List.zipWith auditLine ds ms).map (fun l => toString now ++ ": " ++ goTrim l) ∧
      stF.log = st.log ∧ stF.unconfirmed = st.unconfirmed := by
  have hlen := (deltaCommits_ok_shape hd).1
  unfold anchorRepo
  simp only [hd]
  rw [if_neg (by simp [hlen])]
  unfold anchorOp
  rw [if_neg (by simp [htest])]
  exact ⟨_, rfl, rfl, rfl, rfl, rfl, rfl⟩

/-- Concrete instance of `anchorRepo_spec`. -/
theorem anchorRepo_spec_witness :
    ∃ stF, anchorRepo hashW stW4 5 =
        .ok (merkleRoot hashW [List.replicate 20 2 ++ List.replicate 12 0], stF) ∧
      stF.submitted = ([List.replicate 20 2 ++ List.replicate 12 0] ++
        [merkleRoot hashW [List.replicate 20 2 ++ List.replicate 12 0]]) ::
        stW4.submitted ∧
      stF.committed = (markerAnchor ++ " " ++
        hexOf (merkleRoot hashW [List.replicate 20 2 ++ List.replicate 12 0]) ++
        "\n\n" ++ String.join (List.zipWith auditLine
          [List.replicate 20 2 ++ List.replicate 12 0] ["Add record ab"])) ::
        stW4.committed ∧
      stF.auditTrail = stW4.auditTrail ++
        (toString (5 : Int) ++ ": --- Audit Trail Record " ++
          hexOf (merkleRoot hashW [List.replicate 20 2 ++ List.replicate 12 0]) ++
          " ---") ::
        (List.zipWith auditLine [List.replicate 20 2 ++ List.replicate 12 0]
          ["Add record ab"]).map (fun l => toString (5 : Int) ++ ": " ++ goTrim l) ∧
      stF.log = stW4.log ∧ stF.unconfirmed = stW4.unconfirmed :=
  anchorRepo_spec hashW stW4 5 [List.replicate 20 2 ++ List.replicate 12 0]
    ["Add record ab"] [⟨List.replicate 20 2, "Add record ab"⟩] rfl (by decide)

/-- C5 counterexample: a confirmation pass whose first reply has
`chain_timestamp == 0` returns a `"not enough confirmations"` error — it is
not treated as a locally recovered condition — and the remaining (here:
confirmed) replies are left unprocessed: the state is unchanged, so no
confirmation commit is created for the second reply. -/
theorem afterAnchorVerify_zero_counterexample :
    (afterAnchorVerify stW5
      [⟨String.mk (List.replicate 64 'a'), 0, "tx1"⟩,
       ⟨String.mk (List.replicate 64 'b'), 7, "tx2"⟩]).2 =
      some (.notEnoughConfirmations (String.mk (List.replicate 64 'a'))) ∧
    (afterAnchorVerify stW5
      [⟨String.mk (List.replicate 64 'a'), 0, "tx1"⟩,
       ⟨String.mk (List.replicate 64 'b'), 7, "tx2"⟩]).1 = stW5 := by
  constructor
  · rfl
  · rfl

theorem confirmOne_unconfirmed_ok {st : AnchorState} {vr : VerifyDigest}
    {s : AnchorState} (h : confirmOne st vr = .ok s) :
    s.unconfirmed = st.unconfirmed := by
  unfold confirmOne at h
  split at h
  · exact absurd h (by simp)
  · split at h
    · exact absurd h (by simp)
    · split at h
      · simp only [Except.ok.injEq] at h
        rw [← h]
        rfl
      · simp only [Except.ok.injEq] at h
        rw [← h]
        rfl

theorem confirmOne_unconfirmed_err {st : AnchorState} {vr : VerifyDigest}
    {e : GErr} {s : AnchorState} (h : confirmOne st vr = .error (e, s)) :
    s.unconfirmed = st.unconfirmed := by
  unfold confirmOne at h
  split at h
  · simp only [Except.error.injEq, Prod.mk.injEq] at h
    rw [← h.2]
  · split at h
    · simp only [Except.error.injEq, Prod.mk.injEq] at h
      rw [← h.2]
    · split at h
      · exact absurd h (by simp)
      · exact absurd h (by simp)

/-- C5 amended: a reply with `chain_timestamp == 0` makes
`afterAnchorVerify` return the `"not enough confirmations"` error
immediately, so the replies after it are not processed; the pending merkle
root is left in the unconfirmed set only because `afterAnchorVerify` never
modifies that set at all. -/
theorem afterAnchorVerify_zero_aborts :
    (∀ (st : AnchorState) (z : VerifyDigest) (rest : List VerifyDigest),
      z.chainTimestamp = 0 →
      afterAnchorVerify st (z :: rest) =
        (st, some (.notEnoughConfirmations z.digest))) ∧
    (∀ (st : AnchorState) (vrs : List VerifyDigest),
      (afterAnchorVerify st vrs).1.unconfirmed = st.unconfirmed) := by
  constructor
  · intro st z rest hz
    unfold afterAnchorVerify afterAnchorLoop confirmOne
    rw [if_pos (by simp [hz])]
  · intro st vrs
    unfold afterAnchorVerify
    induction vrs generalizing st with
    | nil => rfl
    | cons vr rest ih =>
      rcases hcc : confirmOne st vr with ⟨e, s⟩ | s
      · simp only [afterAnchorLoop, hcc]
        exact confirmOne_unconfirmed_err hcc
      · simp only [afterAnchorLoop, hcc]
        exact (ih s).trans (confirmOne_unconfirmed_ok hcc)

/-- Concrete instance of `afterAnchorVerify_zero_aborts`. -/
theorem afterAnchorVerify_zero_aborts_witness :
    afterAnchorVerify stW5 [⟨String.mk (List.replicate 64 'a'), 0, "tx1"⟩] =
      (stW5, some (.notEnoughConfirmations (String.mk (List.replicate 64 'a')))) ∧
    (afterAnchorVerify stW5
      [⟨String.mk (List.replicate 64 'b'), 7, "tx2"⟩]).1.unconfirmed =
      stW5.unconfirmed :=
  ⟨afterAnchorVerify_zero_aborts.1 stW5 ⟨String.mk (List.replicate 64 'a'), 0, "tx1"⟩
      [] rfl,
   afterAnchorVerify_zero_aborts.2 stW5 [⟨String.mk (List.replicate 64 'b'), 7, "tx2"⟩]⟩

/-! Claim C1: status transition gate -/
/-- C1: `setUnvettedStatus` performs only the enumerated lifecycle
transitions — `Unvetted` or `IterationUnvetted` to `Vetted`, and `Unvetted`
to `Censored`: every successful run took one of those two pairs, and for
every other (current status, requested status) pair it returns
`StateTransitionError` carrying that from/to pair with the repository state
untouched apart from the branch checkout. -/
theorem setUnvettedStatus_transitions (env : Env) (st : RepoState) (token : Bytes)
    (status : MDStatus) (mdAppend mdOverwrite : List MetadataStream) (now : Int)
    (md : RecordMetadata)
    (hb : st.branches.contains (hexOf token) = true)
    (hmd : aget (hexOf token) st.work.mds = some md) :
    (∀ (r : RecordMetadata) (stF : RepoState),
      setUnvettedStatus env st token status mdAppend mdOverwrite now = .ok (r, stF) →
      ((md.status = .unvetted ∨ md.status = .iterationUnvetted) ∧ status = .vetted) ∨
      (md.status = .unvetted ∧ status = .censored)) ∧
    (¬(((md.status = .unvetted ∨ md.status = .iterationUnvetted) ∧ status = .vetted) ∨
        (md.status = .unvetted ∧ status = .censored)) →
      setUnvettedStatus env st token status mdAppend mdOverwrite now =
        .error (.stateTransition md.status status, { st with current := hexOf token })) := by
  unfold setUnvettedStatus
  rw [if_neg (by rw [hb]; simp)]
  simp only [hmd]
  constructor
  · intro r stF h
    split at h
    · next h1 =>
      rw [Bool.and_eq_true, Bool.or_eq_true] at h1
      refine Or.inl ⟨?_, by simpa using h1.2⟩
      rcases h1.1 with h1a | h1b
      · exact Or.inl (by simpa using h1a)
      · exact Or.inr (by simpa using h1b)
    · split at h
      · next h2 =>
        rw [Bool.and_eq_true] at h2
        exact Or.inr ⟨by simpa using h2.1, by simpa using h2.2⟩
      · exact absurd h (by simp)
  · intro hn
    rw [if_neg ?hc1, if_neg ?hc2]
    case hc1 =>
      intro hcb
      rw [Bool.and_eq_true, Bool.or_eq_true] at hcb
      refine hn (Or.inl ⟨?_, by simpa using hcb.2⟩)
      rcases hcb.1 with hca | hcb'
      · exact Or.inl (by simpa using hca)
      · exact Or.inr (by simpa using hcb')
    case hc2 =>
      intro hcb
      rw [Bool.and_eq_true] at hcb
      exact hn (Or.inr ⟨by simpa using hcb.1, by simpa using hcb.2⟩)

/-- Concrete instance of `setUnvettedStatus_transitions`: censoring a
`Vetted` record fails with `StateTransitionError{Vetted, Censored}` and the
state is unchanged apart from the checkout. -/
theorem setUnvettedStatus_transitions_witness :
    setUnvettedStatus envW stW1 [171] .censored [] [] 0 =
      .error (.stateTransition .vetted .censored, { stW1 with current := "ab" }) :=
  (setUnvettedStatus_transitions envW stW1 [171] .censored [] [] 0 mdW1
    (by decide) (by decide)).2 (by decide)

/-- C7 counterexample: with no branch `idW` but an existing record
directory, `checkoutRecordBranch` does not refuse with `RecordNotFound` —
it creates the branch — and the whole `UpdateUnvettedRecord` call
succeeds. -/
theorem checkoutRecordBranch_counterexample :
    checkoutRecordBranch stW7 idW =
      .ok (false, { stW7 with branches := [idW], current := idW }) ∧
    (UpdateUnvettedRecord envW stW7 tokenW [] [] [fileW7] [] 7).isOk = true := by
  constructor
  · decide
  · decide

/-- C7 amended: if a digest-named staging branch `<id>` exists it is checked
out and the update proceeds on it; if neither the branch nor the record
directory exists the operation refuses with `RecordNotFound` and performs no
mutation; but when the record directory exists without the branch, the
branch is created and the update proceeds. -/
theorem checkoutRecordBranch_cases (st : RepoState) (id : String) :
    (st.branches.any (fun v => isDigestStr v && v == id) = true →
      checkoutRecordBranch st id = .ok (true, { st with current := id })) ∧
    (st.branches.any (fun v => isDigestStr v && v == id) = false →
      aget id st.work.mds = none →
      checkoutRecordBranch st id = .error (.recordNotFound, st)) ∧
    (st.branches.any (fun v => isDigestStr v && v == id) = false →
      (aget id st.work.mds).isSome = true →
      st.branches.contains id = false →
      checkoutRecordBranch st id =
        .ok (false, { st with branches := id :: st.branches, current := id })) := by
  refine ⟨?_, ?_, ?_⟩
  · intro h
    unfold checkoutRecordBranch
    rw [if_pos h]
  · intro h1 h2
    unfold checkoutRecordBranch
    rw [if_neg (by rw [h1]; simp), if_pos (by rw [h2]; rfl)]
  · intro h1 h2 h3
    obtain ⟨v, hv⟩ := Option.isSome_iff_exists.mp h2
    unfold checkoutRecordBranch
    rw [if_neg (by rw [h1]; simp), if_neg (by rw [hv]; simp)]
    unfold gitNewBranch
    rw [if_neg (by rw [h3]; simp)]

/-- Concrete instances of `checkoutRecordBranch_cases`. -/
theorem checkoutRecordBranch_cases_witness :
    checkoutRecordBranch { stW7 with branches := [idW] } idW =
      .ok (true, { stW7 with branches := [idW], current := idW }) ∧
    checkoutRecordBranch { stW7 with work := ⟨[], [], []⟩ } "cd" =
      .error (.recordNotFound, { stW7 with work := ⟨[], [], []⟩ }) ∧
    checkoutRecordBranch stW7 idW =
      .ok (false, { stW7 with branches := [idW], current := idW }) :=
  ⟨(checkoutRecordBranch_cases { stW7 with branches := [idW] } idW).1 (by decide),
   (checkoutRecordBranch_cases { stW7 with work := ⟨[], [], []⟩ } "cd").2.1
     (by decide) (by decide),
   (checkoutRecordBranch_cases stW7 idW).2.2 (by decide) (by decide) (by decide)⟩

/-- C2 counterexample: `UpdateUnvettedRecord` does not fail on a `Locked`
record — the status gate of `updateRecord` accepts `Locked` — so the update
succeeds, writes a new payload file into the locked record, bumps the
version and rewrites the status to `IterationUnvetted`. -/
theorem locked_update_counterexample :
    (UpdateUnvettedRecord envW stW2 tokenW [] [] [fileW7] [] 7).isOk = true ∧
    (UpdateUnvettedRecord envW stW2 tokenW [] [] [fileW7] [] 7).toOption.map
      (fun p => p.1.status) = some .iterationUnvetted ∧
    (UpdateUnvettedRecord envW stW2 tokenW [] [] [fileW7] [] 7).toOption.map
      (fun p => p.1.version) = some 4 ∧
    (UpdateUnvettedRecord envW stW2 tokenW [] [] [fileW7] [] 7).toOption.map
      (fun p => aget "b.txt" ((aget idW p.2.work.payloads).getD [])) =
      some (some [121]) ∧
    (UpdateUnvettedRecord envW stW2 tokenW [] [] [fileW7] [] 7).toOption.map
      (fun p => p.2.commits.length) = some 1 := by
  refine ⟨by decide, by decide, by decide, by decide, by decide⟩

/-- C2 amended: `UpdateVettedMetadata` refuses a `Locked` record with
`ErrRecordLocked`, leaving every file, metadata stream and RecordMetadata
unchanged (the returned state differs from the input only by the checkout
of master); but the status gate of `updateRecord` — used by
`UpdateUnvettedRecord` — accepts `Locked`, so a byte-changing update of a
Locked record is not refused. -/
theorem locked_record_gate (env : Env) (st : RepoState) (token : Bytes)
    (mdAppend mdOverwrite : List MetadataStream) (md : RecordMetadata)
    (hv : verifyContent env (mdAppend ++ mdOverwrite) [] [] =
      .error (.contentVerification .empty []))
    (hsd : st.shutdown = false)
    (hmd : aget (hexOf token) st.work.mds = some md)
    (hlocked : md.status = .locked) :
    UpdateVettedMetadata env st token mdAppend mdOverwrite =
      .error (.recordLocked, { st with current := "master" }) ∧
    updateableStatus .locked = true := by
  refine ⟨?_, rfl⟩
  unfold UpdateVettedMetadata UpdateVettedMetadataRun
  simp only [hv]
  rw [if_neg (by rw [hsd]; simp)]
  simp only [hmd]
  rw [if_pos (by rw [hlocked]; rfl)]

/-- Concrete instance of `locked_record_gate`. -/
theorem locked_record_gate_witness :
    UpdateVettedMetadata envW stW2 tokenW [] [] =
      .error (.recordLocked, { stW2 with current := "master" }) ∧
    updateableStatus .locked = true :=
  locked_record_gate envW stW2 tokenW [] [] mdW2 (by decide) rfl (by decide) rfl

/-! Association list lemmas -/
theorem aget_aset_self {α : Type} (k : String) (v : α) (l : List (String × α)) :
    aget k (aset k v l) = some v := by
  induction l with
  | nil => simp [aset, aget, List.find?]
  | cons p rest ih =>
    obtain ⟨k', v'⟩ := p
    unfold aset
    by_cases hk : (k' == k) = true
    · rw [if_pos hk]
      simp [aget, List.find?]
    · rw [if_neg hk]
      simp only [aget, List.find?] at ih ⊢
      rw [show ((k', v').1 == k) = false from by simpa using hk]
      exact ih

theorem aget_applyChanges (st : RepoState) (id : String)
    (mdAppend mdOverwrite : List MetadataStream) (fa : List CookedFile)
    (filesDel : List String) :
    aget id (applyChanges st id mdAppend mdOverwrite fa filesDel).work.payloads =
      some (filesDel.foldl (fun d v => d.filter (fun p => !(p.1 == v)))
        (fa.foldl (fun d f => aset f.name f.payload d)
          ((aget id st.work.payloads).getD []))) :=
  aget_aset_self _ _ _

/-! Claim C6: empty changeset returns NoChanges -/
theorem checkoutRecordBranch_frame {st : RepoState} {id : String} {b : Bool}
    {st2 : RepoState} (h : checkoutRecordBranch st id = .ok (b, st2)) :
    st2.commits = st.commits ∧ st2.work = st.work ∧ st2.head = st.head := by
  unfold checkoutRecordBranch at h
  split at h
  · simp only [Except.ok.injEq, Prod.mk.injEq] at h
    rw [← h.2]
    exact ⟨rfl, rfl, rfl⟩
  · split at h
    · exact absurd h (by simp)
    · split at h
      · exact absurd h (by simp)
      · next st' heq =>
        unfold gitNewBranch at heq
        split at heq
        · exact absurd heq (by simp)
        · simp only [Except.ok.injEq] at heq
          simp only [Except.ok.injEq, Prod.mk.injEq] at h
          rw [← h.2, ← heq]
          exact ⟨rfl, rfl, rfl⟩

/-- C6: when the applied file writes, deletions and metadata changes
produce no byte difference in the working tree, `UpdateUnvettedRecord`
returns `ErrNoChanges` and the commit graph is unchanged: the commit list
and committed tree of the returned state equal those of the input state,
and `recordmetadata.json` is not rewritten. -/
theorem updateRecord_noChanges (env : Env) (st : RepoState) (token : Bytes)
    (mdAppend mdOverwrite : List MetadataStream) (filesAdd : List BFile)
    (filesDel : List String) (now : Int) (fa : List CookedFile)
    (found : Bool) (st2 : RepoState) (md : RecordMetadata)
    (hv : verifyContent env (mdAppend ++ mdOverwrite) filesAdd filesDel = .ok fa)
    (hsd : st.shutdown = false)
    (hco : checkoutRecordBranch { st with current := "master" } (hexOf token) =
      .ok (found, st2))
    (hmd : aget (hexOf token) st2.work.mds = some md)
    (hgate : updateableStatus md.status = true)
    (hdel : filesDel.find? (fun v =>
      (aget v ((aget (hexOf token) st2.work.payloads).getD [])).isNone) = none)
    (hdiff : (applyChanges st2 (hexOf token) mdAppend mdOverwrite fa filesDel).work =
      st2.head) :
    UpdateUnvettedRecord env st token mdAppend mdOverwrite filesAdd filesDel now =
      .error (.noChanges,
        { applyChanges st2 (hexOf token) mdAppend mdOverwrite fa filesDel with
          current := "master" }) ∧
    ({ applyChanges st2 (hexOf token) mdAppend mdOverwrite fa filesDel with
        current := "master" } : RepoState).commits = st.commits ∧
    ({ applyChanges st2 (hexOf token) mdAppend mdOverwrite fa filesDel with
        current := "master" } : RepoState).head = st.head ∧
    ({ applyChanges st2 (hexOf token) mdAppend mdOverwrite fa filesDel with
        current := "master" } : RepoState).work.mds = st.work.mds := by
  have hframe := checkoutRecordBranch_frame hco
  have hup : updateRecord env { st with current := "master" } token mdAppend
      mdOverwrite fa filesDel now =
      .error (.noChanges,
        applyChanges st2 (hexOf token) mdAppend mdOverwrite fa filesDel) := by
    unfold updateRecord
    simp only [hco, hmd]
    rw [if_neg (by rw [hgate]; simp)]
    simp only [hdel]
    unfold updateRecordCommit
    rw [if_neg (by rw [aget_applyChanges]; simp)]
    rw [if_pos (by simp only [beq_iff_eq]; exact hdiff)]
  have h1 : st2.work = st.work := hframe.2.1
  have h2 : st2.commits = st.commits := hframe.1
  have h3 : st2.head = st.head := hframe.2.2
  have h4 : (applyChanges st2 (hexOf token) mdAppend mdOverwrite fa
      filesDel).work.mds = st2.work.mds := rfl
  refine ⟨?_, h2, h3, h4.trans (congrArg Tree.mds h1)⟩
  unfold UpdateUnvettedRecord
  simp only [hv]
  rw [if_neg (by rw [hsd]; simp)]
  simp only [hup]

/-- Concrete instance of `updateRecord_noChanges`: rewriting `a.txt` with
identical bytes yields `ErrNoChanges` and no commit. -/
theorem updateRecord_noChanges_witness :
    UpdateUnvettedRecord envW stW6 tokenW [] [] [fileW6] [] 9 =
      .error (.noChanges,
        { applyChanges { stW6 with current := idW } idW [] []
            [⟨"a.txt", List.replicate 31 0 ++ [120], [120]⟩] [] with
          current := "master" }) ∧
    ({ applyChanges { stW6 with current := idW } idW [] []
        [⟨"a.txt", List.replicate 31 0 ++ [120], [120]⟩] [] with
      current := "master" } : RepoState).commits = stW6.commits ∧
    ({ applyChanges { stW6 with current := idW } idW [] []
        [⟨"a.txt", List.replicate 31 0 ++ [120], [120]⟩] [] with
      current := "master" } : RepoState).head = stW6.head ∧
    ({ applyChanges { stW6 with current := idW } idW [] []
        [⟨"a.txt", List.replicate 31 0 ++ [120], [120]⟩] [] with
      current := "master" } : RepoState).work.mds = stW6.work.mds :=
  updateRecord_noChanges envW stW6 tokenW [] [] [fileW6] [] 9
    [⟨"a.txt", List.replicate 31 0 ++ [120], [120]⟩] true
    { stW6 with current := idW } mdW7
    (by decide) rfl (by decide) (by decide) rfl (by decide) (by decide)

theorem sortByName_perm (dir : List (String × Bytes)) :
    List.Perm (sortByName dir) dir :=
  List.perm_insertionSort _ dir

theorem cookFiles_ok {env : Env} : ∀ {fs : List BFile} {fa : List CookedFile},
    cookFiles env fs = .ok fa →
    fa = fs.map (fun f => (⟨f.name, env.hash f.payload, f.payload⟩ : CookedFile))
  | [], fa, h => by
    simp only [cookFiles, Except.ok.injEq] at h
    simp [← h]
  | f :: rest, fa, h => by
    unfold cookFiles at h
    split at h
    · exact absurd h (by simp)
    split at h
    · exact absurd h (by simp)
    split at h
    · exact absurd h (by simp)
    split at h
    · exact absurd h (by simp)
    split at h
    · exact absurd h (by simp)
    split at h
    · exact absurd h (by simp)
    next fa2 hrec =>
      simp only [Except.ok.injEq] at h
      rw [← h, List.map_cons, cookFiles_ok hrec]

theorem count_names (files : List BFile) (a : String) :
    (files.map (fun f => f.name)).count a =
      (files.filter (fun g => g.name == a)).length := by
  induction files with
  | nil => rfl
  | cons f rest ih =>
    simp only [List.map_cons, List.count_cons, List.filter_cons]
    by_cases hf : (f.name == a) = true
    · rw [if_pos hf]
      simp [hf, ih]
    · rw [if_neg hf]
      simp [hf, ih]

theorem names_nodup (files : List BFile)
    (h : ∀ f ∈ files, (files.filter (fun g => g.name == f.name)).length ≤ 1) :
    (files.map (fun f => f.name)).Nodup := by
  rw [List.nodup_iff_count_le_one]
  intro a
  by_cases ha : a ∈ files.map (fun f => f.name)
  · obtain ⟨f, hf, rfl⟩ := List.mem_map.mp ha
    rw [count_names]
    exact h f hf
  · rw [List.count_eq_zero_of_not_mem ha]
    omega

theorem verifyContent_ok {env : Env} {metadata : List MetadataStream}
    {files : List BFile} {filesDel : List String} {fa : List CookedFile}
    (h : verifyContent env metadata files filesDel = .ok fa) :
    fa = files.map (fun f => (⟨f.name, env.hash f.payload, f.payload⟩ : CookedFile)) ∧
    (files.map (fun f => f.name)).Nodup := by
  unfold verifyContent at h
  split at h
  · exact absurd h (by simp)
  split at h
  · exact absurd h (by simp)
  split at h
  · exact absurd h (by simp)
  split at h
  · exact absurd h (by simp)
  split at h
  · exact absurd h (by simp)
  split at h
  · exact absurd h (by simp)
  next hdup =>
    refine ⟨cookFiles_ok h, names_nodup files ?_⟩
    intro f hf
    have hnf := List.find?_eq_none.mp hdup f hf
    simp only [Bool.or_eq_true, not_or, decide_eq_true_eq] at hnf
    omega

theorem aset_notMem {α : Type} (k : String) (v : α) (l : List (String × α))
    (h : ∀ p ∈ l, p.1 ≠ k) : aset k v l = l ++ [(k, v)] := by
  induction l with
  | nil => rfl
  | cons p rest ih =>
    obtain ⟨k', v'⟩ := p
    unfold aset
    rw [if_neg (by simpa using h (k', v') (by simp))]
    rw [ih (fun q hq => h q (List.mem_cons_of_mem _ hq))]
    rfl

theorem foldl_aset (fs : List CookedFile) :
    ∀ (acc : List (String × Bytes)),
    (∀ p ∈ acc, p.1 ∉ fs.map (fun f => f.name)) →
    (fs.map (fun f => f.name)).Nodup →
    fs.foldl (fun d f => aset f.name f.payload d) acc =
      acc ++ fs.map (fun f => (f.name, f.payload)) := by
  induction fs with
  | nil =>
    intro acc _ _
    simp
  | cons f rest ih =>
    intro acc hdisj hnd
    simp only [List.foldl_cons]
    rw [aset_notMem f.name f.payload acc (fun p hp => by
      have hm := hdisj p hp
      simp only [List.map_cons, List.mem_cons, not_or] at hm
      exact hm.1)]
    simp only [List.map_cons, List.nodup_cons] at hnd
    rw [ih (acc ++ [(f.name, f.payload)]) ?_ hnd.2]
    · simp
    · intro p hp
      rcases List.mem_append.mp hp with hp1 | hp2
      · have hm := hdisj p hp1
        simp only [List.map_cons, List.mem_cons, not_or] at hm
        exact hm.2
      · simp only [List.mem_singleton] at hp2
        rw [hp2]
        exact hnd.1

theorem newRecord_ok (env : Env) (stM : RepoState) (token : Bytes)
    (metadata : List MetadataStream) (fa : List CookedFile) (now : Int)
    (hbr : stM.branches.contains (hexOf token) = false)
    (hfresh : aget (hexOf token) stM.work.payloads = none)
    (hci : env.commitOk = true) :
    ∃ stF, newRecord env stM token metadata fa now =
      .ok (⟨1, .unvetted, merkleRoot env.hash (fa.map (fun f => f.digest)), now, token⟩,
        stF) ∧
      aget (hexOf token) stF.work.payloads =
        some (fa.foldl (fun d f => aset f.name f.payload d) []) := by
  unfold newRecord gitNewBranch gitCommit
  simp only [hbr, hci, hfresh, Bool.false_eq_true, if_false, if_true,
    Option.getD_none]
  exact ⟨_, rfl, aget_aset_self _ _ _⟩

/-- C3: (a) a record written by `New` stores as its merkle field the merkle
combination, in canonical sorted order, of the SHA-256 digests of the
record's payload files as they end up on disk, computed from the validated
input files; (b) every successful `updateRecord` stores as the new merkle
field the merkle combination, in canonical sorted order, of the SHA-256
digests of the resulting file set on disk. -/
theorem merkle_root_invariant :
    (∀ (env : Env) (st : RepoState) (metadata : List MetadataStream)
        (files : List BFile) (token : Bytes) (now : Int) (fa : List CookedFile),
      verifyContent env metadata files [] = .ok fa →
      st.shutdown = false →
      st.branches.contains (hexOf token) = false →
      aget (hexOf token) st.work.payloads = none →
      env.commitOk = true →
      ∃ md stF, New env st metadata files token now = .ok (md, stF) ∧
        md.merkle =
          merkleTreeS env.hash (sortDigests (payloadDigests env stF (hexOf token)))) ∧
    (∀ (env : Env) (st : RepoState) (token : Bytes)
        (mdAppend mdOverwrite : List MetadataStream) (fa : List CookedFile)
        (filesDel : List String) (now : Int) (md : RecordMetadata) (stF : RepoState),
      updateRecord env st token mdAppend mdOverwrite fa filesDel now = .ok (md, stF) →
      md.merkle =
        merkleTreeS env.hash (sortDigests (payloadDigests env stF (hexOf token)))) := by
  constructor
  · intro env st metadata files token now fa hv hsd hbr hfresh hci
    obtain ⟨hfa, hnodup⟩ := verifyContent_ok hv
    have hfanames : fa.map (fun f => f.name) = files.map (fun f => f.name) := by
      rw [hfa, List.map_map]
      rfl
    have hfanodup : (fa.map (fun f => f.name)).Nodup := by
      rw [hfanames]
      exact hnodup
    obtain ⟨stF0, hnr, hpay⟩ := newRecord_ok env { st with current := "master" } token
      metadata fa now hbr hfresh hci
    refine ⟨⟨1, .unvetted, merkleRoot env.hash (fa.map (fun f => f.digest)), now,
      token⟩, { stF0 with current := "master" }, ?_, ?_⟩
    · unfold New
      simp only [hv]
      rw [if_neg (by rw [hsd]; simp), hnr]
    · have hfold : fa.foldl (fun d f => aset f.name f.payload d) [] =
          fa.map (fun f => (f.name, f.payload)) := by
        rw [foldl_aset fa [] (by simp) hfanodup]
        simp
      have hpd : payloadDigests env ({ stF0 with current := "master" } : RepoState)
          (hexOf token) = fa.map (fun f => f.digest) := by
        unfold payloadDigests
        have hpay' : aget (hexOf token)
            ({ stF0 with current := "master" } : RepoState).work.payloads =
            some (fa.foldl (fun d f => aset f.name f.payload d) []) := hpay
        rw [hpay', hfold]
        simp only [Option.getD_some, List.map_map]
        rw [hfa, List.map_map, List.map_map]
        rfl
      rw [hpd]
      rfl
  · intro env st token mdAppend mdOverwrite fa filesDel now md stF h
    unfold updateRecord at h
    split at h
    · exact absurd h (by simp)
    next found st1 hco =>
    split at h
    · exact absurd h (by simp)
    next brm hbrm =>
    split at h
    · exact absurd h (by simp)
    split at h
    · exact absurd h (by simp)
    next hdel =>
    unfold updateRecordCommit at h
    split at h
    · exact absurd h (by simp)
    split at h
    · exact absurd h (by simp)
    split at h
    · exact absurd h (by simp)
    next st5 hcm =>
    simp only [Except.ok.injEq, Prod.mk.injEq] at h
    obtain ⟨hmd, hstF⟩ := h
    unfold gitCommit at hcm
    split at hcm
    · simp only [Except.ok.injEq] at hcm
      rw [← hmd]
      have hag : aget (hexOf token) stF.work.payloads =
          some (filesDel.foldl (fun d v => d.filter (fun p => !(p.1 == v)))
            (fa.foldl (fun d f => aset f.name f.payload d)
              ((aget (hexOf token) st1.work.payloads).getD []))) := by
        rw [← hstF, ← hcm]
        exact aget_applyChanges st1 (hexOf token) mdAppend mdOverwrite fa filesDel
      have hpd : payloadDigests env stF (hexOf token) =
          (filesDel.foldl (fun d v => d.filter (fun p => !(p.1 == v)))
            (fa.foldl (fun d f => aset f.name f.payload d)
              ((aget (hexOf token) st1.work.payloads).getD []))).map
            (fun p => env.hash p.2) := by
        unfold payloadDigests
        rw [hag]
        rfl
      show merkleRoot env.hash (recordHashes env
        (applyChanges st1 (hexOf token) mdAppend mdOverwrite fa filesDel)
        (hexOf token)) = _
      have hrh : recordHashes env
          (applyChanges st1 (hexOf token) mdAppend mdOverwrite fa filesDel)
          (hexOf token) =
          (sortByName (filesDel.foldl (fun d v => d.filter (fun p => !(p.1 == v)))
            (fa.foldl (fun d f => aset f.name f.payload d)
              ((aget (hexOf token) st1.work.payloads).getD [])))).map
            (fun p => env.hash p.2) := by
        unfold recordHashes
        rw [aget_applyChanges st1 (hexOf token) mdAppend mdOverwrite fa filesDel]
        rfl
      rw [hrh]
      have hperm : List.Perm
          ((sortByName (filesDel.foldl (fun d v => d.filter (fun p => !(p.1 == v)))
            (fa.foldl (fun d f => aset f.name f.payload d)
              ((aget (hexOf token) st1.work.payloads).getD [])))).map
            (fun p => env.hash p.2))
          ((filesDel.foldl (fun d v => d.filter (fun p => !(p.1 == v)))
            (fa.foldl (fun d f => aset f.name f.payload d)
              ((aget (hexOf token) st1.work.payloads).getD []))).map
            (fun p => env.hash p.2)) :=
        (sortByName_perm _).map _
      rw [merkleRoot_eq_of_perm env.hash hperm, ← hpd]
      rfl
    · exact absurd hcm (by simp)

/-- Concrete instances of both parts of `merkle_root_invariant`. -/
theorem merkle_root_invariant_witness :
    (∃ md stF, New envW stW3 [] [fileW7] tokenW 3 = .ok (md, stF) ∧
      md.merkle =
        merkleTreeS envW.hash (sortDigests (payloadDigests envW stF (hexOf tokenW)))) ∧
    (∃ md stF, updateRecord envW stW2 tokenW [] []
        [⟨"b.txt", List.replicate 31 0 ++ [121], [121]⟩] [] 7 = .ok (md, stF) ∧
      md.merkle =
        merkleTreeS envW.hash (sortDigests (payloadDigests envW stF (hexOf tokenW)))) := by
  constructor
  · exact merkle_root_invariant.1 envW stW3 [] [fileW7] tokenW 3
      [⟨"b.txt", List.replicate 31 0 ++ [121], [121]⟩]
      (by decide) rfl (by decide) (by decide) rfl
  · have hok : (updateRecord envW stW2 tokenW [] []
        [⟨"b.txt", List.replicate 31 0 ++ [121], [121]⟩] [] 7).isOk = true := by decide
    rcases hE : updateRecord envW stW2 tokenW [] []
        [⟨"b.txt", List.replicate 31 0 ++ [121], [121]⟩] [] 7 with ⟨e, s⟩ | ⟨md, stF⟩
    · rw [hE] at hok
      exact absurd hok (by simp [Except.isOk, Except.toBool])
    · exact ⟨md, stF, rfl,
        merkle_root_invariant.2 envW stW2 tokenW [] []
          [⟨"b.txt", List.replicate 31 0 ++ [121], [121]⟩] [] 7 md stF hE⟩

/-! Claim C9: temporary branches on failure paths -/
theorem updateVettedMetadata_err_branches (env : Env) (st : RepoState)
    (id idTmp : String) (mdA mdO : List MetadataStream) (e : GErr) (stI : RepoState)
    (hn : st.branches.contains idTmp = false)
    (h : updateVettedMetadata env st id idTmp mdA mdO = .error (e, stI)) :
    stI.branches = idTmp :: st.branches := by
  unfold updateVettedMetadata at h
  split at h
  · next e0 heq =>
    unfold gitNewBranch at heq
    split at heq
    · next hc =>
      rw [hn] at hc
      exact absurd hc (by simp)
    · exact absurd heq (by simp)
  · next st1 heq =>
    unfold gitNewBranch at heq
    split at heq
    · next hc =>
      rw [hn] at hc
      exact absurd hc (by simp)
    · simp only [Except.ok.injEq] at heq
      split at h
      · simp only [Except.error.injEq, Prod.mk.injEq] at h
        rw [← h.2, ← heq]
        rfl
      · split at h
        · next ec heqc =>
          unfold gitCommit at heqc
          split at heqc
          · exact absurd heqc (by simp)
          · simp only [Except.error.injEq] at heqc
            simp only [Except.error.injEq] at h
            rw [h] at heqc
            simp only [Prod.mk.injEq] at heqc
            rw [← heqc.2, ← heq]
            rfl
        · next st3 heqc =>
          unfold gitCommit at heqc
          split at heqc
          · simp only [Except.ok.injEq] at heqc
            have hb3 : st3.branches = idTmp :: st.branches := by
              rw [← heqc, ← heq]
              rfl
            unfold rebasePR at h
            rw [if_neg (by rw [hb3]; simp)] at h
            unfold gitBranchDelete at h
            rw [if_pos (show ({ st3 with current := "master" } :
              RepoState).branches.contains idTmp = true by
                show st3.branches.contains idTmp = true
                rw [hb3]
                simp)] at h
            exact absurd h (by simp)
          · exact absurd heqc (by simp)

theorem UVMRun_cleanup (env : Env) (st : RepoState) (token : Bytes)
    (mdA mdO : List MetadataStream) (e : GErr) (stF : RepoState)
    (hn : st.branches.contains (hexOf token ++ "_tmp") = false)
    (h : UpdateVettedMetadataRun env st token mdA mdO = .error (e, stF)) :
    stF.branches.contains (hexOf token ++ "_tmp") = false := by
  unfold UpdateVettedMetadataRun at h
  split at h
  · simp only [Except.error.injEq, Prod.mk.injEq] at h
    rw [← h.2]
    exact hn
  · split at h
    · simp only [Except.error.injEq, Prod.mk.injEq] at h
      rw [← h.2]
      exact hn
    · next md0 hmd0 =>
      split at h
      · simp only [Except.error.injEq, Prod.mk.injEq] at h
        rw [← h.2]
        exact hn
      · split at h
        · exact absurd h (by simp)
        · next e1 stI hinner =>
          have hbI := updateVettedMetadata_err_branches env
            { st with current := "master" } (hexOf token) (hexOf token ++ "_tmp")
            mdA mdO e1 stI hn hinner
          split at h
          · next e2 heqd =>
            unfold gitBranchDelete at heqd
            split at heqd
            · exact absurd heqd (by simp)
            · next hc =>
              refine absurd ?_ hc
              show stI.branches.contains (hexOf token ++ "_tmp") = true
              rw [hbI]
              simp
          · next stD heqd =>
            unfold gitBranchDelete at heqd
            split at heqd
            · simp only [Except.ok.injEq] at heqd
              simp only [Except.error.injEq, Prod.mk.injEq] at h
              rw [← h.2, ← heqd]
              show (stI.branches.erase (hexOf token ++ "_tmp")).contains
                (hexOf token ++ "_tmp") = false
              rw [hbI, List.erase_cons_head]
              exact hn
            · exact absurd heqd (by simp)

/-- C9 counterexample: a `New` whose commit fails after creating record
branch `idW` stashes and restores master but performs no branch-delete, so
the branch survives the failed operation. -/
theorem new_branch_survives_counterexample :
    New envWbad stW3 [] [fileW7] tokenW 3 = .error (.gitFail, stW9) ∧
    stW9.branches.contains idW = true := by
  constructor
  · decide
  · decide

/-- C9 amended: only `UpdateVettedMetadata` garbage-collects its temporary
branch `<id>_tmp` on failure — every failing run leaves no `<id>_tmp`
branch it created; the failure paths of `New` (and `SetUnvettedStatus`)
only stash and restore master, so the record branch `<id>` created by a
failed `New` survives. -/
theorem failure_branch_cleanup :
    (∀ (env : Env) (st : RepoState) (token : Bytes)
        (mdAppend mdOverwrite : List MetadataStream) (e : GErr) (stF : RepoState),
      st.branches.contains (hexOf token ++ "_tmp") = false →
      UpdateVettedMetadata env st token mdAppend mdOverwrite = .error (e, stF) →
      stF.branches.contains (hexOf token ++ "_tmp") = false) ∧
    (∀ (env : Env) (st : RepoState) (metadata : List MetadataStream)
        (files : List BFile) (token : Bytes) (now : Int) (fa : List CookedFile),
      verifyContent env metadata files [] = .ok fa →
      st.shutdown = false →
      st.branches.contains (hexOf token) = false →
      env.commitOk = false →
      ∃ stF, New env st metadata files token now = .error (.gitFail, stF) ∧
        stF.branches.contains (hexOf token) = true) := by
  constructor
  · intro env st token mdAppend mdOverwrite e stF hn h
    unfold UpdateVettedMetadata at h
    split at h
    · exact UVMRun_cleanup env st token mdAppend mdOverwrite e stF hn h
    · simp only [Except.error.injEq, Prod.mk.injEq] at h
      rw [← h.2]
      exact hn
    · exact UVMRun_cleanup env st token mdAppend mdOverwrite e stF hn h
  · intro env st metadata files token now fa hv hsd hbr hcibad
    unfold New
    simp only [hv]
    rw [if_neg (by rw [hsd]; simp)]
    unfold newRecord gitNewBranch gitCommit
    simp only [hbr, hcibad, Bool.false_eq_true, if_false]
    refine ⟨_, rfl, ?_⟩
    show ((hexOf token :: st.branches).contains (hexOf token)) = true
    simp

/-- Concrete instances of `failure_branch_cleanup`: a failing
`UpdateVettedMetadata` (no changes to commit) deletes `<id>_tmp`, and a
failing `New` leaves branch `<id>` behind. -/
theorem failure_branch_cleanup_witness :
    (∃ e stF, UpdateVettedMetadata envW stW6 tokenW [] [] = .error (e, stF) ∧
      stF.branches.contains (idW ++ "_tmp") = false) ∧
    (∃ stF, New envWbad stW3 [] [fileW7] tokenW 3 = .error (.gitFail, stF) ∧
      stF.branches.contains idW = true) := by
  constructor
  · have hok : UpdateVettedMetadata envW stW6 tokenW [] [] =
        .error (.noChanges, { stW6 with current := "master" }) := by decide
    exact ⟨.noChanges, { stW6 with current := "master" }, hok,
      failure_branch_cleanup.1 envW stW6 tokenW [] [] .noChanges
        { stW6 with current := "master" } (by decide) hok⟩
  · exact failure_branch_cleanup.2 envWbad stW3 [] [fileW7] tokenW 3
      [⟨"b.txt", List.replicate 31 0 ++ [121], [121]⟩]
      (by decide) rfl (by decide) rfl

end Gitbe

